import Mathlib

/-!
Verification development for the AI-Based-Resume-Builder pipeline core.

Python floats are modelled as real numbers; `x ** 0.5` becomes `Real.sqrt`,
so the vector-norm layer is noncomputable while the string/set layer stays
computable.  Python's truthiness idiom `x or d` on numbers is modelled by
an explicit zero test.
-/

namespace AIResume

/-! ### src/scoring.py -/

/-- Python `x or d` for a float `x`: `d` when `x` is falsy (equal to 0), else `x`. -/
noncomputable def pyOr (x d : ℝ) : ℝ :=
  if x = 0 then d else x

/-- Python `n or d` for an int `n`. -/
def pyOrNat (n d : ℕ) : ℕ :=
  if n = 0 then d else n

/-- `dot(a, b)`: `sum(x * y for x, y in zip(a, b))`. -/
def dot (a b : List ℝ) : ℝ :=
  (List.zipWith (fun x y => x * y) a b).sum

/-- `sum(x * x for x in a)`, the quantity under the square root in `norm`. -/
def sumsq (a : List ℝ) : ℝ :=
  (a.map (fun x => x * x)).sum

/-- `norm(a)`: `sum(x * x for x in a) ** 0.5`. -/
noncomputable def norm (a : List ℝ) : ℝ :=
  Real.sqrt (sumsq a)

/-- `cosine_similarity(a, b)`: `dot(a, b) / ((norm(a) * norm(b)) or 1.0)`. -/
noncomputable def cosine_similarity (a b : List ℝ) : ℝ :=
  dot a b / pyOr (norm a * norm b) 1

/-- The denominator actually used by `cosine_similarity`. -/
noncomputable def cosineDenom (a b : List ℝ) : ℝ :=
  pyOr (norm a * norm b) 1

/-- `set(s.lower() for s in skills)`. -/
def lowerSet (skills : List String) : Finset String :=
  (skills.map String.toLower).toFinset

/-- `sorted(list(s))` for a Python set of strings, using lexicographic string order. -/
def sortedList (s : Finset String) : List String :=
  s.sort (fun a b => a ≤ b)

/-- The dictionary returned by `compute_match_score` (the `explanation` entry, a
formatted report of the other fields, is not modelled). -/
structure MatchResult where
  similarity : ℝ
  jaccard : ℝ
  score : ℝ
  confidence : ℝ
  missing_skills : List String

/-- `compute_match_score(resume_vec, job_vec, resume_skills, job_skills)`. -/
noncomputable def compute_match_score (resume_vec job_vec : List ℝ)
    (resume_skills job_skills : List String) : MatchResult :=
  let sim := cosine_similarity resume_vec job_vec
  let rs := lowerSet resume_skills
  let js := lowerSet job_skills
  let skill_overlap := (rs ∩ js).card
  let skill_union := pyOrNat (rs ∪ js).card 1
  let jaccard := (skill_overlap : ℝ) / (skill_union : ℝ)
  let score := 0.7 * sim + 0.3 * jaccard
  let score_pct := max 0 (min 1 score) * 100
  let confidence := 0.5 + 0.5 * min sim 1
  let missing_skills := sortedList (js \ rs)
  ⟨sim, jaccard, score_pct, confidence, missing_skills⟩

/-- Python's `list.sort(key=lambda x: x[1], reverse=True)` is the stable descending
sort on the second component; `List.insertionSort` with the total relation
`q.2 ≤ p.2` is exactly that stable sort. -/
noncomputable def sortBySimDesc (l : List (String × ℝ)) : List (String × ℝ) :=
  List.insertionSort (fun p q => q.2 ≤ p.2) l

/-- The intermediate list `sims` built by `top_k_matches` before sorting:
`[(text, cosine_similarity(query_vec, vec)) for text, vec in zip(corpus_texts, corpus_vecs)]`. -/
noncomputable def simsList (query_vec : List ℝ) (corpus_texts : List String)
    (corpus_vecs : List (List ℝ)) : List (String × ℝ) :=
  (corpus_texts.zip corpus_vecs).map (fun p => (p.1, cosine_similarity query_vec p.2))

/-- `top_k_matches(query_vec, corpus_texts, corpus_vecs, k)`. -/
noncomputable def top_k_matches (query_vec : List ℝ) (corpus_texts : List String)
    (corpus_vecs : List (List ℝ)) (k : ℕ) : List (String × ℝ) :=
  (sortBySimDesc (simsList query_vec corpus_texts corpus_vecs)).take k

/-! ### src/parsing.py -/

/-- The curated skill vocabulary `BASIC_SKILLS` (a Python set literal, listed here
in source order). -/
def BASIC_SKILLS : List String :=
  ["python", "java", "javascript", "typescript", "c++", "c#", "go", "rust", "sql",
   "pandas", "numpy", "scikit-learn", "tensorflow", "pytorch", "nlp", "spacy", "nltk",
   "aws", "azure", "gcp", "docker", "kubernetes", "ci/cd", "git",
   "react", "node", "streamlit", "flask", "django"]

/-- Character class of the `extract_skills` tokenizer regex: letters plus
the characters #, +, . and - (note: no digits, no slash). -/
def isSkillTokenChar (c : Char) : Bool :=
  c.isAlpha || c = '#' || c = '+' || c = '.' || c = '-'

/-- Character class the claim attributes to the tokenizer: alphanumeric plus
#, +, . and - (differs from the source class by admitting digits). -/
def isSkillTokenCharClaim (c : Char) : Bool :=
  c.isAlphanum || c = '#' || c = '+' || c = '.' || c = '-'

/-- `re.findall` for a character-class regex `[class]+`: the maximal runs of
characters satisfying `p`, in order of occurrence.  `acc` holds the current
run, reversed. -/
def tokenRunsAux (p : Char → Bool) (acc : List Char) : List Char → List String
  | [] => if acc.isEmpty then [] else [String.mk acc.reverse]
  | c :: cs =>
    if p c then tokenRunsAux p (c :: acc) cs
    else if acc.isEmpty then tokenRunsAux p [] cs
    else String.mk acc.reverse :: tokenRunsAux p [] cs

/-- Maximal runs of characters satisfying `p` in a string. -/
def tokenRuns (p : Char → Bool) (s : String) : List String :=
  tokenRunsAux p [] s.data

/-- Python `text.lower()` (per-character lowercasing). -/
def pyLower (s : String) : String :=
  String.mk (s.data.map Char.toLower)

/-- The token list of `extract_skills`: `re.findall(r"[A-Za-z#+.\-]+", text.lower())`. -/
def skillTokens (text : String) : List String :=
  tokenRuns isSkillTokenChar (pyLower text)

/-- Lexicographic less-or-equal on character lists (Python string comparison
is lexicographic by code point). -/
def lexLeChars : List Char → List Char → Bool
  | [], _ => true
  | _ :: _, [] => false
  | a :: as, b :: bs => if a < b then true else if a = b then lexLeChars as bs else false

/-- Python string less-or-equal. -/
def strLe (a b : String) : Bool :=
  lexLeChars a.data b.data

/-- The order relation `sorted` uses on strings. -/
def strLeRel (a b : String) : Prop :=
  strLe a b = true

instance : DecidableRel strLeRel := fun a b => by
  unfold strLeRel; infer_instance

/-- `extract_skills(text)`: `sorted(s for s in BASIC_SKILLS if s in tokens)`
where `tokens` is the set of tokenizer matches (membership in the Python set
equals membership in the match list); `sorted` is modelled by the stable
`insertionSort` under the lexicographic order. -/
def extract_skills (text : String) : List String :=
  List.insertionSort strLeRel
    (BASIC_SKILLS.filter (fun s => s ∈ skillTokens text))

/-- The skill extractor as the claim describes it: same pipeline, but with the
alphanumeric-including character class. -/
def extract_skills_claim (text : String) : List String :=
  List.insertionSort strLeRel
    (BASIC_SKILLS.filter (fun s => s ∈ tokenRuns isSkillTokenCharClaim (pyLower text)))

/-- Line-break characters recognised by the `splitlines` model. -/
def isLineBreak (c : Char) : Bool :=
  c = '\n' || c = '\r'

/-- Python `str.splitlines` (modelled for the separators \n, \r and \r\n):
every break terminates a line, a trailing segment is kept only when non-empty,
the empty string yields no lines.  `acc` holds the current line, reversed. -/
def splitlinesAux (acc : List Char) : List Char → List (List Char)
  | [] => if acc.isEmpty then [] else [acc.reverse]
  | '\r' :: '\n' :: rest => acc.reverse :: splitlinesAux [] rest
  | c :: rest =>
    if isLineBreak c then acc.reverse :: splitlinesAux [] rest
    else splitlinesAux (c :: acc) rest

/-- `text.splitlines()`. -/
def splitlines (s : String) : List String :=
  (splitlinesAux [] s.data).map String.mk

/-- Python `s.strip()`: drop leading and trailing whitespace. -/
def pyStrip (s : String) : String :=
  String.mk (((s.data.dropWhile Char.isWhitespace).reverse.dropWhile Char.isWhitespace).reverse)

/-- Python `s.split()` with no argument: maximal runs of non-whitespace. -/
def pyWords (s : String) : List String :=
  tokenRuns (fun c => !c.isWhitespace) s

/-- The line `extract_name` examines: `(text.splitlines() or [""])[0].strip()`,
i.e. the first line of the text (empty when there are no lines), stripped. -/
def firstLineStripped (text : String) : String :=
  pyStrip ((splitlines text).headD "")

/-- The acceptance test of `extract_name`:
`2 <= len(first_line.split()) <= 5 and len(first_line) <= 64`. -/
def nameAccept (line : String) : Prop :=
  2 ≤ (pyWords line).length ∧ (pyWords line).length ≤ 5 ∧ line.length ≤ 64

instance (line : String) : Decidable (nameAccept line) := by
  unfold nameAccept; infer_instance

/-- `extract_name(text)`. -/
def extract_name (text : String) : Option String :=
  let first_line := firstLineStripped text
  if nameAccept first_line then some first_line else none

/-- The name extractor as the claim describes it: the first NON-empty line of
the text (stripped), subject to the same acceptance test. -/
def extract_name_claim (text : String) : Option String :=
  let first_line := pyStrip (((splitlines text).filter (fun l => l ≠ "")).headD "")
  if nameAccept first_line then some first_line else none

/-! ### src/embeddings.py (`_LocalHashingEmbeddings`) -/

/-- Character class of `_LocalHashingEmbeddings._tokenize`:
`[A-Za-z0-9_#+.-]+` (alphanumeric plus underscore, #, +, . and -). -/
def isEmbTokenChar (c : Char) : Bool :=
  c.isAlphanum || c = '_' || c = '#' || c = '+' || c = '.' || c = '-'

/-- `_tokenize(text)`: `re.findall(r"[A-Za-z0-9_#+.-]+", text.lower())`. -/
def embTokenize (text : String) : List String :=
  tokenRuns isEmbTokenChar (pyLower text)

/-- `_hash_to_index(token)`, parametric in `sha1head`, which stands for the
external-library computation
`int.from_bytes(hashlib.sha1(token.encode("utf-8")).digest()[:4], "big")`
(a fixed pure function of the token; `hashlib` is outside this repository). -/
def hashToIndex (sha1head : String → ℕ) (dim : ℕ) (tok : String) : ℕ :=
  sha1head tok % dim

/-- `vec[idx] += 1.0` on a list-modelled vector. -/
def bump (v : List ℝ) (idx : ℕ) : List ℝ :=
  v.set idx (v.getD idx 0 + 1)

/-- The vector `embed_documents` appends for one text `t`: token counts per
hash bucket over a zero-initialised vector of length `dim`, L2-normalised when
the norm is positive.  (`t or ""` equals `t` for every string.) -/
noncomputable def embedVector (sha1head : String → ℕ) (dim : ℕ) (t : String) : List ℝ :=
  let tokens := embTokenize t
  let vec0 : List ℝ := List.replicate dim 0
  if tokens.isEmpty then vec0
  else
    let vec := tokens.foldl (fun v tok => bump v (hashToIndex sha1head dim tok)) vec0
    let n := Real.sqrt (sumsq vec)
    if 0 < n then vec.map (fun x => x / n) else vec

/-- `_LocalHashingEmbeddings(dimension).embed_documents(texts)`. -/
noncomputable def embed_documents (sha1head : String → ℕ) (dim : ℕ)
    (texts : List String) : List (List ℝ) :=
  texts.map (embedVector sha1head dim)

/-- `embed_one(t)` = `embed_documents([t])[0]`. -/
noncomputable def embed_one (sha1head : String → ℕ) (dim : ℕ) (t : String) : List ℝ :=
  (embed_documents sha1head dim [t]).headD []

/-! ### src/workflow.py and the pipeline run in latest.py -/

/-- `AgentResult` (declared in src/agents.py, which the sources do not include;
field layout reconstructed from its uses in src/workflow.py: `name`, `inputs`,
`outputs`, `reasoning`, with the mapping values stringified). -/
structure AgentResult where
  name : String
  inputs : List (String × String)
  outputs : List (String × String)
  reasoning : String

/-- `WorkflowTrace` from src/workflow.py. -/
structure WorkflowTrace where
  steps : List AgentResult
  edges : List (String × String)

/-- `[(names[i], names[i + 1]) for i in range(len(names) - 1)]`. -/
def consecutivePairs (names : List String) : List (String × String) :=
  names.zip names.tail

/-- `build_workflow_trace(steps)` from src/workflow.py. -/
def build_workflow_trace (steps : List AgentResult) : WorkflowTrace :=
  ⟨steps, consecutivePairs (steps.map (fun s => s.name))⟩

/-- Modelled from the spec: `resume_parser_agent` lives in the absent
src/agents.py; its stage name follows spec section 4.6 (`ParseResume`). -/
def resume_parser_agent (raw_text : String) : AgentResult :=
  ⟨"ParseResume", [("resume_bytes", raw_text)],
   [("raw_text", raw_text)], "parsed resume"⟩

/-- Modelled from the spec: `job_parser_agent` lives in the absent
src/agents.py; its stage name follows spec section 4.6 (`ParseJob`). -/
def job_parser_agent (job_text : String) : AgentResult :=
  ⟨"ParseJob", [("job_text", job_text)], [("job_text", job_text)], "parsed job"⟩

/-- Modelled from the spec: `content_enhancer_agent` lives in the absent
src/agents.py; its stage name follows spec section 4.6 (`EnhanceContent`). -/
def content_enhancer_agent (raw_text : String) : AgentResult :=
  ⟨"EnhanceContent", [("raw_text", raw_text)], [("enhanced", raw_text)], "enhanced"⟩

/-- Modelled from the spec: `matcher_and_scoring_agent` lives in the absent
src/agents.py; its stage name follows spec section 4.6 (`MatchAndScore`). -/
def matcher_and_scoring_agent (resume_text job_text : String) : AgentResult :=
  ⟨"MatchAndScore", [("resume_text", resume_text), ("job_text", job_text)],
   [("scored", "yes")], "matched and scored"⟩

/-- The analysis run of latest.py (lines 850 to 889): the four agents are
invoked in order, each appended to `steps`, and the trace is built from that
list by `build_workflow_trace`. -/
def run_pipeline (resume_text job_text : String) : WorkflowTrace :=
  let a1 := resume_parser_agent resume_text
  let a2 := job_parser_agent job_text
  let a3 := content_enhancer_agent resume_text
  let a4 := matcher_and_scoring_agent resume_text job_text
  build_workflow_trace [a1, a2, a3, a4]

/-! ### Helper lemmas -/

theorem tokenRunsAux_mem_chars (p : Char → Bool) :
    ∀ (cs acc : List Char), (∀ c ∈ acc, p c = true) →
      ∀ s ∈ tokenRunsAux p acc cs, ∀ c ∈ s.data, p c = true := by
  intro cs
  induction cs with
  | nil =>
    intro acc hacc s hs c hc
    by_cases h : acc.isEmpty
    · simp [tokenRunsAux, h] at hs
    · simp [tokenRunsAux, h] at hs
      subst hs
      exact hacc c (List.mem_reverse.mp hc)
  | cons a cs ih =>
    intro acc hacc s hs c hc
    by_cases hpa : p a
    · rw [tokenRunsAux, if_pos hpa] at hs
      refine ih (a :: acc) ?_ s hs c hc
      intro x hx
      rcases List.mem_cons.mp hx with hx | hx
      · exact hx ▸ hpa
      · exact hacc x hx
    · by_cases hemp : acc.isEmpty
      · rw [tokenRunsAux, if_neg hpa, if_pos hemp] at hs
        exact ih [] (by simp) s hs c hc
      · rw [tokenRunsAux, if_neg hpa, if_neg hemp] at hs
        rcases List.mem_cons.mp hs with hs | hs
        · subst hs
          exact hacc c (List.mem_reverse.mp hc)
        · exact ih [] (by simp) s hs c hc

theorem tokenRuns_mem_chars (p : Char → Bool) (s : String) {t : String}
    (ht : t ∈ tokenRuns p s) : ∀ c ∈ t.data, p c = true :=
  tokenRunsAux_mem_chars p s.data [] (by simp) t ht

theorem lexLeChars_total : ∀ as bs : List Char,
    lexLeChars as bs = true ∨ lexLeChars bs as = true
  | [], _ => Or.inl rfl
  | _ :: _, [] => Or.inr rfl
  | a :: as, b :: bs => by
    rcases lt_trichotomy a b with h | h | h
    · left; simp [lexLeChars, h]
    · subst h
      rcases lexLeChars_total as bs with ih | ih
      · left; simp [lexLeChars, ih]
      · right; simp [lexLeChars, ih]
    · right; simp [lexLeChars, h]

theorem lexLeChars_trans : ∀ as bs cs : List Char,
    lexLeChars as bs = true → lexLeChars bs cs = true → lexLeChars as cs = true
  | [], _, _ => fun _ _ => rfl
  | _ :: _, [], _ => by intro h _; simp [lexLeChars] at h
  | _ :: _, _ :: _, [] => by intro _ h; simp [lexLeChars] at h
  | a :: as, b :: bs, c :: cs => by
    intro h1 h2
    by_cases hab : a < b
    · by_cases hbc : b < c
      · simp [lexLeChars, lt_trans hab hbc]
      · by_cases hbc2 : b = c
        · subst hbc2; simp [lexLeChars, hab]
        · simp [lexLeChars, hbc, hbc2] at h2
    · by_cases hab2 : a = b
      · subst hab2
        by_cases hac : a < c
        · simp [lexLeChars, hac]
        · by_cases hac2 : a = c
          · subst hac2
            simp only [lexLeChars, lt_irrefl, if_false, if_pos rfl] at h1 h2 ⊢
            exact lexLeChars_trans as bs cs h1 h2
          · by_cases hbc : a < c
            · exact absurd hbc hac
            · by_cases hbc2 : a = c
              · exact absurd hbc2 hac2
              · simp [lexLeChars, hbc, hbc2] at h2
      · simp [lexLeChars, hab, hab2] at h1

instance : IsTotal String strLeRel :=
  ⟨fun a b => lexLeChars_total a.data b.data⟩

instance : IsTrans String strLeRel :=
  ⟨fun a b c => lexLeChars_trans a.data b.data c.data⟩

instance : IsTotal (String × ℝ) (fun p q => q.2 ≤ p.2) :=
  ⟨fun a b => le_total b.2 a.2⟩

instance : IsTrans (String × ℝ) (fun p q => q.2 ≤ p.2) :=
  ⟨fun _ _ _ h1 h2 => le_trans h2 h1⟩

theorem sumsq_nonneg (a : List ℝ) : 0 ≤ sumsq a := by
  refine List.sum_nonneg ?_
  intro x hx
  rcases List.mem_map.mp hx with ⟨y, _, rfl⟩
  exact mul_self_nonneg y

theorem norm_nonneg' (a : List ℝ) : 0 ≤ norm a :=
  Real.sqrt_nonneg _

theorem all_zero_of_sumsq_eq_zero {a : List ℝ} (h : sumsq a = 0) :
    ∀ x ∈ a, x = 0 := by
  induction a with
  | nil => intro x hx; cases hx
  | cons y l ih =>
    have hy : 0 ≤ y * y := mul_self_nonneg y
    have hl : 0 ≤ sumsq l := sumsq_nonneg l
    have hsum : y * y + sumsq l = 0 := by simpa [sumsq] using h
    have hy0 : y * y = 0 := le_antisymm (by linarith) hy
    have hl0 : sumsq l = 0 := by linarith
    intro x hx
    rcases List.mem_cons.mp hx with rfl | hx
    · exact mul_self_eq_zero.mp hy0
    · exact ih hl0 x hx

theorem all_zero_of_norm_eq_zero {a : List ℝ} (h : norm a = 0) :
    ∀ x ∈ a, x = 0 := by
  refine all_zero_of_sumsq_eq_zero ?_
  have := Real.sqrt_eq_zero'.mp h
  exact le_antisymm this (sumsq_nonneg a)

theorem dot_eq_zero_left : ∀ (a b : List ℝ), (∀ x ∈ a, x = 0) → dot a b = 0
  | [], _, _ => rfl
  | _ :: _, [], _ => rfl
  | x :: as, y :: bs, h => by
    have hx : x = 0 := h x (List.mem_cons_self x as)
    have hrest : dot as bs = 0 :=
      dot_eq_zero_left as bs (fun z hz => h z (List.mem_cons_of_mem x hz))
    simp [dot] at hrest ⊢
    simp [hx, hrest]

theorem dot_eq_zero_right : ∀ (a b : List ℝ), (∀ x ∈ b, x = 0) → dot a b = 0
  | [], _, _ => rfl
  | _ :: _, [], _ => rfl
  | x :: as, y :: bs, h => by
    have hy : y = 0 := h y (List.mem_cons_self y bs)
    have hrest : dot as bs = 0 :=
      dot_eq_zero_right as bs (fun z hz => h z (List.mem_cons_of_mem y hz))
    simp [dot] at hrest ⊢
    simp [hy, hrest]

theorem dot_eq_sum_range : ∀ (a b : List ℝ),
    dot a b = ∑ i in Finset.range (min a.length b.length), a.getD i 0 * b.getD i 0
  | [], b => by simp [dot]
  | _ :: _, [] => by simp [dot]
  | x :: as, y :: bs => by
    have ih := dot_eq_sum_range as bs
    have hmin : min (x :: as).length (y :: bs).length = min as.length bs.length + 1 := by
      simp [List.length_cons, Nat.succ_min_succ]
    rw [hmin, Finset.sum_range_succ']
    simp only [List.getD_cons_succ, List.getD_cons_zero]
    simp [dot] at ih ⊢
    rw [ih]
    ring

theorem sumsq_eq_sum_range (a : List ℝ) :
    sumsq a = ∑ i in Finset.range a.length, a.getD i 0 * a.getD i 0 := by
  induction a with
  | nil => simp [sumsq]
  | cons x as ih =>
    rw [List.length_cons, Finset.sum_range_succ']
    simp only [List.getD_cons_succ, List.getD_cons_zero]
    simp [sumsq] at ih ⊢
    rw [ih]
    ring

theorem sum_range_sq_le_sumsq (a : List ℝ) {n : ℕ} (h : n ≤ a.length) :
    ∑ i in Finset.range n, a.getD i 0 * a.getD i 0 ≤ sumsq a := by
  rw [sumsq_eq_sum_range]
  refine Finset.sum_le_sum_of_subset_of_nonneg ?_ ?_
  · exact Finset.range_subset.mpr h
  · intro i _ _
    exact mul_self_nonneg _

theorem abs_dot_le_norm_mul_norm (a b : List ℝ) : |dot a b| ≤ norm a * norm b := by
  set n := min a.length b.length with hn
  have hdot := dot_eq_sum_range a b
  have hcs := Finset.sum_mul_sq_le_sq_mul_sq (Finset.range n)
    (fun i => a.getD i 0) (fun i => b.getD i 0)
  have ha : ∑ i in Finset.range n, a.getD i 0 ^ 2 ≤ sumsq a := by
    simpa [sq] using sum_range_sq_le_sumsq a (Nat.min_le_left _ _)
  have hb : ∑ i in Finset.range n, b.getD i 0 ^ 2 ≤ sumsq b := by
    simpa [sq] using sum_range_sq_le_sumsq b (Nat.min_le_right _ _)
  have hsq : dot a b ^ 2 ≤ sumsq a * sumsq b := by
    rw [hdot]
    refine le_trans hcs (mul_le_mul ha hb ?_ (sumsq_nonneg a))
    exact Finset.sum_nonneg fun i _ => sq_nonneg _
  have h1 : |dot a b| = Real.sqrt (dot a b ^ 2) := (Real.sqrt_sq_eq_abs _).symm
  rw [h1, norm, norm, ← Real.sqrt_mul (sumsq_nonneg a)]
  exact Real.sqrt_le_sqrt hsq

theorem cosineDenom_pos (a b : List ℝ) : 0 < cosineDenom a b := by
  unfold cosineDenom pyOr
  by_cases h : norm a * norm b = 0
  · rw [if_pos h]; exact one_pos
  · rw [if_neg h]
    exact lt_of_le_of_ne (mul_nonneg (norm_nonneg' a) (norm_nonneg' b)) (Ne.symm h)

theorem cosine_eq_zero_of_norm_eq_zero {a b : List ℝ}
    (h : norm a = 0 ∨ norm b = 0) : cosine_similarity a b = 0 := by
  have hdot : dot a b = 0 := by
    rcases h with h | h
    · exact dot_eq_zero_left a b (all_zero_of_norm_eq_zero h)
    · exact dot_eq_zero_right a b (all_zero_of_norm_eq_zero h)
  simp [cosine_similarity, hdot]

theorem abs_cosine_le_one (a b : List ℝ) : |cosine_similarity a b| ≤ 1 := by
  by_cases h : norm a * norm b = 0
  · have h0 : cosine_similarity a b = 0 := by
      rcases mul_eq_zero.mp h with h | h
      · exact cosine_eq_zero_of_norm_eq_zero (Or.inl h)
      · exact cosine_eq_zero_of_norm_eq_zero (Or.inr h)
    rw [h0]; norm_num
  · have hpos : 0 < norm a * norm b :=
      lt_of_le_of_ne (mul_nonneg (norm_nonneg' a) (norm_nonneg' b)) (Ne.symm h)
    have : cosine_similarity a b = dot a b / (norm a * norm b) := by
      simp [cosine_similarity, pyOr, h]
    rw [this, abs_div, abs_of_pos hpos]
    rw [div_le_one hpos]
    exact abs_dot_le_norm_mul_norm a b

theorem confidence_eq (rvec jvec : List ℝ) (rskills jskills : List String) :
    (compute_match_score rvec jvec rskills jskills).confidence =
      0.5 + 0.5 * min (cosine_similarity rvec jvec) 1 := rfl

theorem jaccard_eq (rvec jvec : List ℝ) (A B : List String) :
    (compute_match_score rvec jvec A B).jaccard =
      ((lowerSet A ∩ lowerSet B).card : ℝ) /
        (pyOrNat ((lowerSet A ∪ lowerSet B).card) 1 : ℝ) := rfl

theorem top_k_matches_length (qv : List ℝ) (texts : List String)
    (vecs : List (List ℝ)) (k : ℕ) :
    (top_k_matches qv texts vecs k).length = min k (min texts.length vecs.length) := by
  unfold top_k_matches sortBySimDesc simsList
  rw [List.length_take, List.length_insertionSort, List.length_map, List.length_zip]

/-! ### Claim theorems -/

/-- Claim C2, counterexample: a pipeline run on concrete inputs yields a trace
with exactly 4 recorded stages and 3 edges, not the 5 stages and 4 edges the
claim states. -/
theorem C2_counterexample :
    (run_pipeline "resume text" "job text").steps.length = 4 ∧
    (run_pipeline "resume text" "job text").edges.length = 3 ∧
    (run_pipeline "resume text" "job text").steps.length ≠ 5 ∧
    (run_pipeline "resume text" "job text").edges.length ≠ 4 := by
  refine ⟨rfl, rfl, by decide, by decide⟩

/-- Claim C2, amended: every pipeline run produces a trace of exactly the four
agent stages in order ParseResume, ParseJob, EnhanceContent, MatchAndScore, and
its edges are exactly the 3 consecutive-name pairs; the trace-building step is
not itself recorded as a stage. -/
theorem C2_trace_stages (resume_text job_text : String) :
    (run_pipeline resume_text job_text).steps.map (fun s => s.name) =
      ["ParseResume", "ParseJob", "EnhanceContent", "MatchAndScore"] ∧
    (run_pipeline resume_text job_text).edges =
      [("ParseResume", "ParseJob"), ("ParseJob", "EnhanceContent"),
       ("EnhanceContent", "MatchAndScore")] :=
  ⟨rfl, rfl⟩

/-- Claim C4, counterexample: on the text beginning with an empty line followed
by the line John Smith, the extractor returns none, while the claimed rule
(first NON-empty line, 2 to 5 words, at most 64 characters) would return the
name John Smith. -/
theorem C4_counterexample :
    extract_name "\nJohn Smith" = none ∧
    extract_name_claim "\nJohn Smith" = some "John Smith" ∧
    extract_name "\nJohn Smith" ≠ extract_name_claim "\nJohn Smith" := by
  refine ⟨by decide, by decide, by decide⟩

/-- Claim C4, amended: the extractor inspects the FIRST line of the text (even
when that line is empty), stripped of surrounding whitespace, and returns it
exactly when its word count is between 2 and 5 and its length is at most 64;
otherwise it returns none. -/
theorem C4_extract_name_characterisation (text : String) (n : String) :
    extract_name text = some n ↔
      (n = firstLineStripped text ∧ 2 ≤ (pyWords n).length ∧
        (pyWords n).length ≤ 5 ∧ n.length ≤ 64) := by
  unfold extract_name nameAccept
  by_cases h : (2 ≤ (pyWords (firstLineStripped text)).length ∧
      (pyWords (firstLineStripped text)).length ≤ 5 ∧
      (firstLineStripped text).length ≤ 64)
  · rw [if_pos h]
    constructor
    · rintro ⟨rfl⟩
      exact ⟨rfl, h.1, h.2.1, h.2.2⟩
    · rintro ⟨rfl, _⟩
      rfl
  · rw [if_neg h]
    constructor
    · rintro ⟨⟩
    · rintro ⟨rfl, h1, h2, h3⟩
      exact absurd ⟨h1, h2, h3⟩ h

/-- Claim C5, counterexample: on the text python3 the extractor returns the
skill python (the source tokenizer splits at the digit), while the claimed
alphanumeric tokenizer would produce only the token python3 and return no
skills. -/
theorem C5_counterexample :
    extract_skills "python3" = ["python"] ∧
    extract_skills_claim "python3" = [] ∧
    extract_skills "python3" ≠ extract_skills_claim "python3" := by
  refine ⟨by decide, by decide, by decide⟩

/-- Claim C5, amended: the skill extractor tokenizes the lowercased text into
maximal runs over the character class consisting of LETTERS (not digits) plus
the characters #, +, . and -, and returns exactly the vocabulary entries among
those tokens, without duplicates and sorted in lexicographic order. -/
theorem C5_extract_skills_characterisation (text : String) :
    (∀ s : String, s ∈ extract_skills text ↔
        (s ∈ BASIC_SKILLS ∧ s ∈ skillTokens text)) ∧
    List.Sorted strLeRel (extract_skills text) ∧
    (extract_skills text).Nodup := by
  refine ⟨?_, ?_, ?_⟩
  · intro s
    unfold extract_skills
    rw [List.mem_insertionSort, List.mem_filter]
    simp
  · exact List.sorted_insertionSort strLeRel _
  · exact (List.perm_insertionSort strLeRel _).nodup_iff.mpr
      ((by decide : BASIC_SKILLS.Nodup).filter _)

/-- Claim C10: no input text can ever make the skill extractor return the
vocabulary entry ci/cd, because every token consists only of characters of the
tokenizer class, which excludes the slash. -/
theorem C10_cicd_never_extracted (text : String) :
    "ci/cd" ∉ extract_skills text := by
  intro hmem
  have h1 : "ci/cd" ∈ skillTokens text := by
    unfold extract_skills at hmem
    rw [List.mem_insertionSort, List.mem_filter] at hmem
    simpa using hmem.2
  have h2 : isSkillTokenChar '/' = true :=
    tokenRuns_mem_chars isSkillTokenChar (pyLower text) h1 '/' (by decide)
  exact absurd h2 (by decide)

/-- Claim C10 witness at a text that literally contains ci/cd. -/
theorem C10_witness :
    extract_skills "experience with ci/cd and docker" = ["docker"] ∧
    "ci/cd" ∉ extract_skills "experience with ci/cd and docker" :=
  ⟨by decide, C10_cicd_never_extracted "experience with ci/cd and docker"⟩

/-- Claim C7: the jaccard value computed by the scoring engine is symmetric in
the two lowercase-normalised skill sets, equals 1 on any non-empty set paired
with itself, and equals 0 on two empty sets by the union-size-floored-at-1
convention. -/
theorem C7_jaccard_algebra (rvec jvec : List ℝ) (A B : List String) :
    (compute_match_score rvec jvec A B).jaccard =
      (compute_match_score rvec jvec B A).jaccard ∧
    (A ≠ [] → (compute_match_score rvec jvec A A).jaccard = 1) ∧
    (compute_match_score rvec jvec [] []).jaccard = 0 := by
  refine ⟨?_, ?_, ?_⟩
  · rw [jaccard_eq, jaccard_eq, Finset.inter_comm, Finset.union_comm]
  · intro hA
    rw [jaccard_eq, Finset.inter_self, Finset.union_self]
    have hcard : (lowerSet A).card ≠ 0 := by
      rcases A with _ | ⟨s, rest⟩
      · exact absurd rfl hA
      · refine Finset.card_ne_zero_of_mem (a := String.toLower s) ?_
        simp [lowerSet]
    rw [pyOrNat, if_neg hcard]
    exact div_self (Nat.cast_ne_zero.mpr hcard)
  · rw [jaccard_eq]
    simp [lowerSet, pyOrNat]

/-- Claim C7 witness: at resume skills containing Python, jaccard with itself
is exactly 1. -/
theorem C7_witness :
    (["Python"] : List String) ≠ [] ∧
    (compute_match_score [] [] ["Python"] ["Python"]).jaccard = 1 :=
  ⟨by decide, (C7_jaccard_algebra [] [] ["Python"] ["SQL"]).2.1 (by decide)⟩

/-- Claim C8: the denominator used by cosine_similarity is never zero (no
division-by-zero is possible), and whenever either vector has zero L2 norm the
denominator is 1 and the similarity is 0. -/
theorem C8_cosine_zero_norm_safe (a b : List ℝ) :
    cosineDenom a b ≠ 0 ∧
    ((norm a = 0 ∨ norm b = 0) →
      cosine_similarity a b = 0 ∧ cosineDenom a b = 1) := by
  refine ⟨ne_of_gt (cosineDenom_pos a b), ?_⟩
  intro h
  refine ⟨cosine_eq_zero_of_norm_eq_zero h, ?_⟩
  have hprod : norm a * norm b = 0 := by
    rcases h with h | h <;> simp [h]
  simp [cosineDenom, pyOr, hprod]

/-- Claim C8 witness: the zero vector against a non-zero vector gives
similarity 0 with denominator 1. -/
theorem C8_witness :
    (norm [0, 0] = 0 ∨ norm [(1 : ℝ), 2] = 0) ∧
    cosine_similarity [0, 0] [1, 2] = 0 ∧ cosineDenom [0, 0] [1, 2] = 1 := by
  have h : norm ([0, 0] : List ℝ) = 0 := by
    simp [norm, sumsq]
  exact ⟨Or.inl h, (C8_cosine_zero_norm_safe [0, 0] [1, 2]).2 (Or.inl h)⟩

/-- Claim C1, counterexample: with resume vector (1) and job vector (-1) the
similarity is -1 and the confidence is 0, below the claimed floor of 0.5. -/
theorem C1_counterexample :
    (compute_match_score [1] [-1] [] []).confidence = 0 ∧
    ¬ (0.5 ≤ (compute_match_score [1] [-1] [] []).confidence) := by
  have hd : dot [(1 : ℝ)] [(-1 : ℝ)] = -1 := by norm_num [dot]
  have hn : norm [(1 : ℝ)] = 1 := by simp [norm, sumsq]
  have hn2 : norm [(-1 : ℝ)] = 1 := by norm_num [norm, sumsq]
  have hsim : cosine_similarity [(1 : ℝ)] [(-1 : ℝ)] = -1 := by
    simp [cosine_similarity, hd, hn, hn2, pyOr]
  constructor
  · rw [confidence_eq, hsim]; norm_num [min_def]
  · rw [confidence_eq, hsim]; norm_num [min_def]

/-- Claim C1, amended: the confidence lies in the interval from 0 to 1 for
every pair of input vectors (the similarity term can be negative, so 0, not
0.5, is the true floor), and it is at least 0.5 exactly in the non-negative
similarity regime, in particular whenever the dot product of the two vectors
is non-negative. -/
theorem C1_confidence_bounds (rvec jvec : List ℝ) (rskills jskills : List String) :
    0 ≤ (compute_match_score rvec jvec rskills jskills).confidence ∧
    (compute_match_score rvec jvec rskills jskills).confidence ≤ 1 ∧
    (0 ≤ dot rvec jvec →
      0.5 ≤ (compute_match_score rvec jvec rskills jskills).confidence) := by
  have habs := abs_cosine_le_one rvec jvec
  have h1 : cosine_similarity rvec jvec ≤ 1 := le_of_abs_le habs
  have h2 : -1 ≤ cosine_similarity rvec jvec := neg_le_of_abs_le habs
  refine ⟨?_, ?_, ?_⟩
  · rw [confidence_eq]
    have hmin : -1 ≤ min (cosine_similarity rvec jvec) 1 := le_min h2 (by norm_num)
    linarith
  · rw [confidence_eq]
    have hmin : min (cosine_similarity rvec jvec) 1 ≤ 1 := min_le_right _ _
    linarith
  · intro hdot
    rw [confidence_eq]
    have hsim : 0 ≤ cosine_similarity rvec jvec := by
      have hc : cosine_similarity rvec jvec = dot rvec jvec / cosineDenom rvec jvec := rfl
      rw [hc]
      exact div_nonneg hdot (le_of_lt (cosineDenom_pos rvec jvec))
    have hmin : 0 ≤ min (cosine_similarity rvec jvec) 1 := le_min hsim (by norm_num)
    linarith

/-- Claim C1 witness: identical one-dimensional vectors have non-negative dot
product, so the confidence is at least 0.5 there. -/
theorem C1_witness :
    (0 : ℝ) ≤ dot [1] [1] ∧
    0.5 ≤ (compute_match_score [1] [1] [] []).confidence := by
  have hd : (0 : ℝ) ≤ dot [1] [1] := by norm_num [dot]
  exact ⟨hd, (C1_confidence_bounds [1] [1] [] []).2.2 hd⟩

/-- Claim C3, counterexample: with 2 candidate texts but only 1 candidate
vector, the ranker does not fail: it silently returns a well-formed result for
the single zipped pair. -/
theorem C3_counterexample :
    (["a", "b"] : List String).length ≠ ([[(1 : ℝ)]] : List (List ℝ)).length ∧
    top_k_matches [1] ["a", "b"] [[1]] 5 = [("a", 1)] := by
  constructor
  · decide
  · have hd : dot [(1 : ℝ)] [(1 : ℝ)] = 1 := by norm_num [dot]
    have hn : norm [(1 : ℝ)] = 1 := by simp [norm, sumsq]
    have hcos : cosine_similarity [(1 : ℝ)] [(1 : ℝ)] = 1 := by
      simp [cosine_similarity, hd, hn, pyOr]
    simp [top_k_matches, simsList, sortBySimDesc, List.insertionSort,
      List.orderedInsert, hcos]

/-- Claim C3, amended: mismatched candidate_texts and candidate_vectors
lengths are not detected; zip silently truncates to the shorter sequence and
the ranker returns a normal result of length min(k, min(texts, vectors)). -/
theorem C3_mismatch_truncates (qv : List ℝ) (texts : List String)
    (vecs : List (List ℝ)) (k : ℕ) :
    (top_k_matches qv texts vecs k).length = min k (min texts.length vecs.length) :=
  top_k_matches_length qv texts vecs k

/-- Claim C6: for equal-length inputs the ranker output has length
min(k, number of texts), is sorted non-increasingly by similarity, and the
sort is stable: any sublist of the computed similarity pairs that is already
non-increasing (in particular any two tied pairs in input order) survives as a
sublist of the sorted list. -/
theorem C6_top_k_ranker (qv : List ℝ) (texts : List String)
    (vecs : List (List ℝ)) (k : ℕ) (h : texts.length = vecs.length) :
    (top_k_matches qv texts vecs k).length = min k texts.length ∧
    (top_k_matches qv texts vecs k).Pairwise (fun p q => q.2 ≤ p.2) ∧
    (∀ c : List (String × ℝ), List.Sublist c (simsList qv texts vecs) →
      c.Pairwise (fun p q => q.2 ≤ p.2) →
      List.Sublist c (sortBySimDesc (simsList qv texts vecs))) := by
  refine ⟨?_, ?_, ?_⟩
  · rw [top_k_matches_length, h, min_self]
  · have hs : (sortBySimDesc (simsList qv texts vecs)).Pairwise
        (fun p q => q.2 ≤ p.2) :=
      List.sorted_insertionSort _ _
    exact hs.sublist (List.take_sublist _ _)
  · intro c hc hp
    exact List.sublist_insertionSort hp hc

/-- Claim C6 witness at one text and one vector with k = 2. -/
theorem C6_witness :
    (["x"] : List String).length = ([[(1 : ℝ)]] : List (List ℝ)).length ∧
    ((top_k_matches [1] ["x"] [[1]] 2).length = min 2 (["x"] : List String).length ∧
      (top_k_matches [1] ["x"] [[1]] 2).Pairwise (fun p q => q.2 ≤ p.2) ∧
      (∀ c : List (String × ℝ), List.Sublist c (simsList [1] ["x"] [[1]]) →
        c.Pairwise (fun p q => q.2 ≤ p.2) →
        List.Sublist c (sortBySimDesc (simsList [1] ["x"] [[1]])))) :=
  ⟨rfl, C6_top_k_ranker [1] ["x"] [[1]] 2 rfl⟩

/-- Claim C9: the local hashing embedding is a deterministic pure function of
the input text; embedding the same text twice with the same provider instance
(dimension 768, fixed sha1-based bucket function) yields identical vectors,
with no randomness or external state in the model. -/
theorem C9_embedding_deterministic (sha1head : String → ℕ) (t : String) :
    embed_documents sha1head 768 [t, t] =
      [embed_one sha1head 768 t, embed_one sha1head 768 t] ∧
    embed_one sha1head 768 t = embedVector sha1head 768 t :=
  ⟨rfl, rfl⟩

end AIResume
